import Mathlib

/-!
Verification of the daily-news-rss crawl / processing pipeline.

The JavaScript sources under src/scripts are shallowly embedded below:
strings are Lean strings or lists of UTF-16 code units, JS 32-bit signed
integer arithmetic is modelled over the integers with explicit reduction
modulo 2 ^ 32, timestamps are integers (milliseconds since the epoch),
and classification confidences are rationals.
-/

namespace DailyNewsRss

/-! ## JS 32-bit signed integer arithmetic -/

/-- Reduction of an integer to the range of a 32-bit signed integer, as
performed by the JS bitwise operators (ToInt32). -/
def toInt32 (x : ℤ) : ℤ := (x + 2147483648) % 4294967296 - 2147483648

/-! ## generateId (src/scripts/crawl.js, lines 457-466)

The JS loop is
  hash = ((hash << 5) - hash) + char; hash = hash & hash;
where the shift itself truncates to 32-bit signed, the subtraction and
addition are exact (double precision suffices for these magnitudes), and
the final bitwise and truncates again.  A string is modelled as its list
of UTF-16 code units, matching charCodeAt. -/

/-- One iteration of the generateId hash loop, straight from the source:
hash << 5 truncates, then the result of the subtraction and addition is
truncated by hash & hash. -/
def hashStep (h : ℤ) (c : ℕ) : ℤ := toInt32 (toInt32 (h * 32) - h + (c : ℤ))

/-- The accumulated hash of a string (list of UTF-16 code units). -/
def hashString (cs : List ℕ) : ℤ := cs.foldl hashStep 0

/-- One base-36 digit, as produced by Number.prototype.toString(36):
0-9 then lowercase a-z. -/
def base36Char (d : ℕ) : Char := if d < 10 then Char.ofNat (48 + d) else Char.ofNat (87 + d)

/-- Big-endian base-36 digit expansion accumulator. -/
def toBase36Aux : ℕ → List Char → List Char
  | 0, acc => acc
  | n + 1, acc => toBase36Aux ((n + 1) / 36) (base36Char ((n + 1) % 36) :: acc)
  termination_by n _ => n
  decreasing_by simp_wf; exact Nat.lt_succ_of_le (Nat.le_of_lt_succ (Nat.div_lt_self (Nat.succ_pos n) (by norm_num)))

/-- Math.abs(hash).toString(36): base-36 rendering of a natural number,
with 0 rendered as the single digit "0". -/
def toBase36 (n : ℕ) : String := if n = 0 then "0" else String.mk (toBase36Aux n [])

/-- generateId from src/scripts/crawl.js: hash the concatenation
title + url and render the absolute value in base 36. -/
def generateId (title url : List ℕ) : String :=
  toBase36 (hashString (title ++ url)).natAbs

/-- Spec-side hash step, following the words of claim C1: the whole of
((hash << 5) - hash) + charCode(c) is truncated to 32-bit signed in one
step (the shift read as multiplication by 32). -/
def specHashStep (h : ℤ) (c : ℕ) : ℤ := toInt32 (h * 32 - h + (c : ℤ))

/-- Spec-side accumulated hash for claim C1. -/
def specHash (cs : List ℕ) : ℤ := cs.foldl specHashStep 0

/-! ## extractDomain (src/scripts/crawl.js, lines 127-133)

The source is
  try { return new URL(url).hostname.replace('www.', ''); }
  catch { return 'unknown'; }
String.prototype.replace with a string pattern replaces only the FIRST
occurrence of the pattern, wherever it occurs, not only a leading prefix.
The platform URL parser is modelled as the input of the function: some
hostname when the url parses, none when the constructor throws. -/

/-- JS String.prototype.replace with string pattern and empty replacement
on lists of characters: delete the first occurrence of pat, if any. -/
def replaceFirstL (pat : List Char) : List Char → List Char
  | [] => []
  | c :: rest =>
    if pat.isPrefixOf (c :: rest) then (c :: rest).drop pat.length
    else c :: replaceFirstL pat rest

/-- hostname.replace(pat, ""). -/
def replaceFirst (s pat : String) : String := String.mk (replaceFirstL pat.data s.data)

/-- extractDomain, with the URL parse outcome as input. -/
def extractDomain (parseResult : Option String) : String :=
  match parseResult with
  | some host => replaceFirst host "www."
  | none => "unknown"

/-! ## Entry normalization in crawlFeed (src/scripts/crawl.js, lines 319-445)

The date logic (lines 408-424) is
  const pubDate = new Date(item.pubDate || item.isoDate || item.published || Date.now());
  if (isNaN(pubDate.getTime())) continue;            // unparseable: reject
  const now = new Date();
  if (pubDate > now) pubDate.setTime(now.getTime()); // future: clamp to now
  const cutoffDate = new Date(Date.now() - daysBack * 24*60*60*1000);
  if (pubDate < cutoffDate) continue;                // look-back window
Timestamps are integer milliseconds.  The platform date parser is the
parameter parse (none = Invalid Date).  A feed field is an Option String,
none or the empty string being JS-falsy.  t0 is the Date.now() used as
the last fallback of the chain, now the later new Date(), and cutoff the
look-back cutoff; in the source t0 is sampled before now, and cutoff is
now minus a positive number of days, giving the hypotheses t0 <= now and
cutoff <= now below. -/

/-- JS truthiness of a string-valued field: absent and "" are falsy. -/
def jsTruthy (o : Option String) : Option String :=
  match o with
  | some s => if s = "" then none else some s
  | none => none

/-- The first truthy field among pubDate, isoDate, published. -/
def selectDateField (pub iso published : Option String) : Option String :=
  match jsTruthy pub with
  | some s => some s
  | none =>
    match jsTruthy iso with
    | some s => some s
    | none => jsTruthy published

/-- new Date(item.pubDate || item.isoDate || item.published || Date.now()):
parse the first truthy field, falling back to the clock value t0.
none models an Invalid Date. -/
def parsePubDateMs (parse : String → Option ℤ) (t0 : ℤ)
    (pub iso published : Option String) : Option ℤ :=
  match selectDateField pub iso published with
  | some s => parse s
  | none => some t0

/-- The isNaN rejection, the future-date clamp and the look-back cutoff,
in source order. -/
def clampValidate (d : Option ℤ) (now cutoff : ℤ) : Option ℤ :=
  match d with
  | none => none
  | some t =>
    let t2 := if now < t then now else t
    if t2 < cutoff then none else some t2

/-- A normalized crawl article (the fields the claims are about). -/
structure Article where
  title : String
  url : String
  pubDate : ℤ
  deriving DecidableEq, Repr

/-- The per-item body of the crawlFeed loop: empty title or url is
rejected, then the relevance filter (abstracted as a boolean), then the
date pipeline; a surviving item becomes an Article. -/
def normalizeItem (parse : String → Option ℤ) (relevant : Bool)
    (title url : String) (pub iso published : Option String)
    (t0 now cutoff : ℤ) : Option Article :=
  if title = "" ∨ url = "" then none
  else if relevant = false then none
  else
    match clampValidate (parsePubDateMs parse t0 pub iso published) now cutoff with
    | none => none
    | some d => some ⟨title, url, d⟩

/-! ## removeDuplicates (src/scripts/crawl.js, lines 469-491)

The key of an article is
  article.title.toLowerCase().replace(/[^a-z0-9\s]/g, \x27\x27)
    .replace(/\s+/g, \x27 \x27).trim().split(\x27 \x27).slice(0, 8).join(\x27 \x27)
and the loop keeps an article when its key was not seen before, in input
order.  Characters are modelled over ASCII: toLowerCase lowers A-Z, and
the regex class backslash-s is the ASCII whitespace characters. -/

/-- ASCII model of the JS whitespace class. -/
def isJsSpace (c : Char) : Bool :=
  c = ' ' || c = Char.ofNat 9 || c = Char.ofNat 10 || c = Char.ofNat 11 ||
  c = Char.ofNat 12 || c = Char.ofNat 13

/-- ASCII model of String.prototype.toLowerCase on one character. -/
def jsToLower (c : Char) : Char :=
  if 'A' ≤ c ∧ c ≤ 'Z' then Char.ofNat (c.toNat + 32) else c

/-- The character class [a-z0-9\s] kept by the first replace. -/
def isKeyChar (c : Char) : Bool :=
  ('a' ≤ c && c ≤ 'z') || ('0' ≤ c && c ≤ '9') || isJsSpace c

/-- replace(/\s+/g, " "): each maximal run of whitespace becomes one
space. -/
def collapseWS : List Char → List Char
  | [] => []
  | [c] => if isJsSpace c then [' '] else [c]
  | c1 :: c2 :: rest =>
    if isJsSpace c1 && isJsSpace c2 then collapseWS (c2 :: rest)
    else (if isJsSpace c1 then ' ' else c1) :: collapseWS (c2 :: rest)

/-- String.prototype.trim: strip leading and trailing whitespace. -/
def trimWS (l : List Char) : List Char :=
  ((l.dropWhile isJsSpace).reverse.dropWhile isJsSpace).reverse

/-- The normalized duplicate-detection key of a title: lowercase, keep
only [a-z0-9\s], collapse whitespace, trim, first 8 words joined by one
space. -/
def dedupKey (title : String) : String :=
  String.mk (List.intercalate [' ']
    ((((collapseWS ((title.data.map jsToLower).filter isKeyChar)) |> trimWS).splitOn ' ').take 8))

/-- The removeDuplicates loop, with the seen set as the list of keys
inserted so far. -/
def removeDupGo : List Article → List String → List Article
  | [], _ => []
  | a :: rest, seen =>
    if dedupKey a.title ∈ seen then removeDupGo rest seen
    else a :: removeDupGo rest (dedupKey a.title :: seen)

/-- removeDuplicates from src/scripts/crawl.js. -/
def removeDuplicates (articles : List Article) : List Article :=
  removeDupGo articles []

/-! ## processArticlesWithAI (src/scripts/process-with-llm.js)

The incremental classification pass: skip ids already processed or
already rejected (lines 319-330), classify the rest, reject records with
confidence below the threshold into the rejected cache (lines 464-481,
575-604), merge with the previously processed articles, sort newest
first, and apply the 15-day rolling window (lines 501-535).  The
classifier is an oracle classify : RawArticle -> category x confidence,
confidences being rationals.  Timestamps are integer milliseconds. -/

/-- A raw article as read from latest-raw.json (the fields the claims
are about). -/
structure RawArticle where
  id : String
  title : String
  pubDate : ℤ
  deriving DecidableEq, Repr

/-- A processed article: the raw record plus the classification fields
filled by the pass. -/
structure ProcessedArticle where
  base : RawArticle
  category : String
  confidence : ℚ
  processed_at : ℤ
  deriving DecidableEq, Repr

/-- A rejected-cache record (lines 470-476). -/
structure RejectedArticle where
  base : RawArticle
  rejectedReason : String
  confidence : ℚ
  confidenceThreshold : ℚ
  rejected_at : ℤ
  deriving DecidableEq, Repr

/-- Milliseconds per day: 24 * 60 * 60 * 1000. -/
def msPerDay : ℤ := 86400000

/-- new Date(Date.now() - cleanupThresholdDays * 24 * 60 * 60 * 1000). -/
def cleanupThreshold (nowMs : ℤ) (days : ℕ) : ℤ := nowMs - days * msPerDay

/-- The rolling-window filter (lines 512-515): keep articles whose
pubDate is strictly greater than the cleanup threshold. -/
def retentionFilter (nowMs : ℤ) (days : ℕ) (l : List ProcessedArticle) : List ProcessedArticle :=
  l.filter (fun a => cleanupThreshold nowMs days < a.base.pubDate)

/-- The outcome of one retention pass: the kept articles plus the
cleanedUpCount and cleanupApplied metadata written to the snapshot
(lines 517, 532-534). -/
structure RetentionResult where
  articles : List ProcessedArticle
  cleanedUpCount : ℕ
  cleanupApplied : Bool
  deriving DecidableEq, Repr

/-- One retention pass over a processed-article list. -/
def runRetention (nowMs : ℤ) (days : ℕ) (l : List ProcessedArticle) : RetentionResult :=
  let recent := retentionFilter nowMs days l
  { articles := recent
    cleanedUpCount := l.length - recent.length
    cleanupApplied := decide (0 < l.length - recent.length) }

/-- Lines 324-326: raw articles whose id is in neither the processed-ids
set nor the rejected-ids set. -/
def articlesToProcess (raw : List RawArticle) (processedIds rejectedIds : List String) :
    List RawArticle :=
  raw.filter (fun a => !processedIds.contains a.id && !rejectedIds.contains a.id)

/-- Lines 329-330: the optional PROCESSING_LIMIT test truncation. -/
def finalArticlesToProcess (testLimit : Option ℕ) (raw : List RawArticle)
    (processedIds rejectedIds : List String) : List RawArticle :=
  match testLimit with
  | some n => (articlesToProcess raw processedIds rejectedIds).take n
  | none => articlesToProcess raw processedIds rejectedIds

/-- The two output lists of the classification loop. -/
structure RouteResult where
  processed : List ProcessedArticle
  rejected : List RejectedArticle
  deriving DecidableEq, Repr

/-- The classification loop (lines 419-499): each article below the
confidence threshold becomes a rejected-cache record with reason
low_confidence, the rest become processed articles; both lists keep
input order. -/
def routeArticles (classify : RawArticle → String × ℚ) (threshold : ℚ)
    (procAt rejAt : ℤ) : List RawArticle → RouteResult
  | [] => ⟨[], []⟩
  | a :: rest =>
    if (classify a).2 < threshold then
      ⟨(routeArticles classify threshold procAt rejAt rest).processed,
        ⟨a, "low_confidence", (classify a).2, threshold, rejAt⟩
          :: (routeArticles classify threshold procAt rejAt rest).rejected⟩
    else
      ⟨⟨a, (classify a).1, (classify a).2, procAt⟩
          :: (routeArticles classify threshold procAt rejAt rest).processed,
        (routeArticles classify threshold procAt rejAt rest).rejected⟩

/-- allProcessedArticles.sort((a, b) => pubDate b - pubDate a)
(line 505): newest first. -/
def sortByPubDateDesc (l : List ProcessedArticle) : List ProcessedArticle :=
  l.mergeSort (fun a b => decide (b.base.pubDate ≤ a.base.pubDate))

/-- Lines 575-599: append the newly rejected records to the cache, then
apply the rejected-cache retention window on rejected_at; when nothing
was newly rejected the cache file is left untouched. -/
def updateRejectedCache (cache newRej : List RejectedArticle) (nowMs : ℤ) (days : ℕ) :
    List RejectedArticle :=
  if newRej = [] then cache
  else (cache ++ newRej).filter (fun a => cleanupThreshold nowMs days < a.rejected_at)

/-- The observable outputs of one processing run. -/
structure RunResult where
  latestArticles : List ProcessedArticle
  newlyProcessed : List ProcessedArticle
  newlyRejected : List RejectedArticle
  rejectedCacheOut : List RejectedArticle
  deriving Repr

/-- One processing run of processArticlesWithAI: the skip filter, the
classification loop, the merge with previously processed articles, the
newest-first sort, the 15-day rolling window, and the rejected-cache
update. -/
def processRun (classify : RawArticle → String × ℚ) (threshold : ℚ)
    (nowMs procAt rejAt : ℤ) (raw : List RawArticle)
    (existing : List ProcessedArticle) (rejectedCache : List RejectedArticle)
    (testLimit : Option ℕ) : RunResult :=
  let pIds := existing.map (fun a => a.base.id)
  let rIds := rejectedCache.map (fun a => a.base.id)
  let toProcess := finalArticlesToProcess testLimit raw pIds rIds
  let routed := routeArticles classify threshold procAt rejAt toProcess
  let merged := existing ++ routed.processed
  let sorted := sortByPubDateDesc merged
  let recent := retentionFilter nowMs 15 sorted
  { latestArticles := recent
    newlyProcessed := routed.processed
    newlyRejected := routed.rejected
    rejectedCacheOut := updateRejectedCache rejectedCache routed.rejected nowMs 15 }

/-! ## Persistence failure handling (src/scripts/crawl.js lines 494-503,
src/scripts/process-with-llm.js lines 564-626)

Snapshot writes (fs.writeFile) are modelled as an outcome per write; an
errored write makes the surrounding run function return the error (there
is no try/catch around the writes, so the rejection propagates).  The
crawl entry point ends in .catch(error => { ...; process.exit(1) }); the
processing entry point ends in .catch(console.error), which logs and
lets the process exit normally with code 0. -/

inductive WriteOutcome
  | success
  | ioError
  deriving DecidableEq, Repr

/-- One fs.writeFile call. -/
def writeSnapshot : WriteOutcome → Except String Unit
  | .success => Except.ok ()
  | .ioError => Except.error "EACCES: permission denied, write latest snapshot"

/-- The tail of crawlAllSources: write latest-raw.json, then resolve
with the article list. -/
def crawlAllSourcesRun (articles : List Article) (w : WriteOutcome) :
    Except String (List Article) := do
  writeSnapshot w
  pure articles

/-- The crawl entry point: Promise rejection is caught and the process
exits with code 1; otherwise the process exits with code 0. -/
def crawlEntryExitCode (articles : List Article) (w : WriteOutcome) : ℕ :=
  match crawlAllSourcesRun articles w with
  | Except.ok _ => 0
  | Except.error _ => 1

/-- The persistence tail of processArticlesWithAI: write
latest-processed.json, the dated daily snapshot, and (when there are new
rejections) the rejected cache; then resolve with the run result. -/
def processRunWithWrites (res : RunResult) (wLatest wDaily wRejected : WriteOutcome) :
    Except String RunResult := do
  writeSnapshot wLatest
  writeSnapshot wDaily
  if res.newlyRejected = [] then pure () else writeSnapshot wRejected
  pure res

/-- The processing entry point: processArticlesWithAI().catch(console.error)
logs the rejection and the process still exits with code 0. -/
def processEntryExitCode (res : RunResult) (wLatest wDaily wRejected : WriteOutcome) : ℕ :=
  match processRunWithWrites res wLatest wDaily wRejected with
  | Except.ok _ => 0
  | Except.error _ => 0

/-! ## Theorems -/

theorem toInt32_emod (x : ℤ) : toInt32 x % 4294967296 = x % 4294967296 := by
  unfold toInt32; omega

theorem toInt32_congr {x y : ℤ} (h : x % 4294967296 = y % 4294967296) :
    toInt32 x = toInt32 y := by
  unfold toInt32; omega

theorem hashStep_eq_specHashStep (h : ℤ) (c : ℕ) : hashStep h c = specHashStep h c := by
  unfold hashStep specHashStep
  exact toInt32_congr (by have := toInt32_emod (h * 32); omega)

theorem hashString_eq_specHash (cs : List ℕ) : hashString cs = specHash cs := by
  unfold hashString specHash
  have hfun : hashStep = specHashStep := by
    funext h c; exact hashStep_eq_specHashStep h c
  rw [hfun]

/-- C1: generateId is deterministic (identical inputs give identical
output) and computes the base-36 encoding of the absolute value of the
32-bit signed accumulation hash := ((hash << 5) - hash) + charCode(c)
over the code units of title + url, starting from 0. -/
theorem generateId_deterministic_and_matches_spec
    (t u t' u' : List ℕ) (h1 : t = t') (h2 : u = u') :
    generateId t u = generateId t' u' ∧
    generateId t u = toBase36 (specHash (t ++ u)).natAbs := by
  subst h1; subst h2
  refine ⟨rfl, ?_⟩
  unfold generateId
  rw [hashString_eq_specHash]

/-- Witness for C1 at a concrete input ("h", "i" as code-unit lists). -/
theorem generateId_deterministic_and_matches_spec_witness :
    generateId [104] [105] = generateId [104] [105] ∧
    generateId [104] [105] = toBase36 (specHash ([104] ++ [105])).natAbs :=
  generateId_deterministic_and_matches_spec [104] [105] [104] [105] rfl rfl

/-- C10: the id depends only on the concatenation title + url, not on
where the boundary between the two lies. -/
theorem generateId_boundary_invariant (a b c : List ℕ) :
    generateId a (b ++ c) = generateId (a ++ b) c := by
  unfold generateId
  rw [List.append_assoc]

theorem replaceFirstL_of_no_occurrence (pat : List Char) :
    ∀ s : List Char, ¬ pat <:+: s → replaceFirstL pat s = s := by
  intro s
  induction s with
  | nil => intro _; rfl
  | cons c rest ih =>
    intro hnot
    unfold replaceFirstL
    rw [if_neg, ih]
    · intro hmem
      exact hnot (List.infix_cons_iff.mpr (Or.inr hmem))
    · intro hpre
      exact hnot (List.infix_cons_iff.mpr (Or.inl (List.isPrefixOf_iff_prefix.mp hpre)))

theorem replaceFirstL_first_occurrence (pat : List Char) (hpat : pat ≠ []) :
    ∀ s : List Char, pat <:+: s →
      ∃ a b, s = a ++ pat ++ b ∧ replaceFirstL pat s = a ++ b ∧
        ∀ a' b', s = a' ++ pat ++ b' → a.length ≤ a'.length := by
  intro s
  induction s with
  | nil =>
    intro hinf
    exact absurd (List.eq_nil_of_infix_nil hinf) hpat
  | cons c rest ih =>
    intro hinf
    by_cases hpre : pat.isPrefixOf (c :: rest)
    · obtain ⟨b, hb⟩ := List.isPrefixOf_iff_prefix.mp hpre
      refine ⟨[], b, by simp [hb], ?_, fun a' b' _ => Nat.zero_le _⟩
      unfold replaceFirstL
      rw [if_pos hpre, ← hb, List.drop_left]
      simp
    · have hinf' : pat <:+: rest := by
        rcases List.infix_cons_iff.mp hinf with h | h
        · exact absurd (List.isPrefixOf_iff_prefix.mpr h) hpre
        · exact h
      obtain ⟨a, b, hsplit, hresult, hmin⟩ := ih hinf'
      refine ⟨c :: a, b, by simp [hsplit], ?_, ?_⟩
      · unfold replaceFirstL
        rw [if_neg hpre, hresult]
        simp
      · intro a' b' heq
        match a', heq with
        | [], heq =>
          exact absurd (List.isPrefixOf_iff_prefix.mpr ⟨b', by simpa using heq.symm⟩) hpre
        | c' :: a'', heq =>
          have : rest = a'' ++ pat ++ b' := by
            have := heq
            simp only [List.cons_append] at this
            exact (List.cons.injEq _ _ _ _ ▸ this).2
          simpa using Nat.succ_le_succ (hmin a'' b' this)

theorem replaceFirstL_of_isPrefixOf (pat s : List Char)
    (h : pat.isPrefixOf s) (hs : s ≠ []) :
    replaceFirstL pat s = s.drop pat.length := by
  match s, hs with
  | c :: rest, _ =>
    unfold replaceFirstL
    rw [if_pos h]

/-- Counterexample to C9 as stated: the hostname "x.www.example.com"
does not begin with "www.", yet extractDomain does not return it
unchanged — the inner "www." is removed. -/
theorem extractDomain_strips_inner_www :
    "www.".data.isPrefixOf "x.www.example.com".data = false ∧
    extractDomain (some "x.www.example.com") = "x.example.com" ∧
    extractDomain (some "x.www.example.com") ≠ "x.www.example.com" := by
  refine ⟨by decide, by decide, by decide⟩

/-- C9 amended: extractDomain is total; on parse failure it returns
"unknown"; on success it returns the hostname with the FIRST occurrence
of "www." (wherever it occurs, not only as a leading prefix) removed; a
hostname not containing "www." at all is returned unchanged; a hostname
beginning with "www." has that leading prefix stripped. -/
theorem extractDomain_amended (r : Option String) :
    (r = none → extractDomain r = "unknown") ∧
    (∀ host, r = some host → ¬ ("www.".data <:+: host.data) →
      extractDomain r = String.mk host.data) ∧
    (∀ host, r = some host → "www.".data <:+: host.data →
      ∃ a b, host.data = a ++ "www.".data ++ b ∧
        extractDomain r = String.mk (a ++ b) ∧
        ∀ a' b', host.data = a' ++ "www.".data ++ b' → a.length ≤ a'.length) ∧
    (∀ host, r = some host → "www.".data.isPrefixOf host.data →
      extractDomain r = String.mk (host.data.drop 4)) := by
  refine ⟨?_, ?_, ?_, ?_⟩
  · rintro rfl; rfl
  · rintro host rfl hnot
    show String.mk (replaceFirstL "www.".data host.data) = String.mk host.data
    rw [replaceFirstL_of_no_occurrence "www.".data host.data hnot]
  · rintro host rfl hinf
    obtain ⟨a, b, hsplit, hres, hmin⟩ :=
      replaceFirstL_first_occurrence "www.".data (by decide) host.data hinf
    exact ⟨a, b, hsplit, congrArg String.mk hres, hmin⟩
  · rintro host rfl hpre
    show String.mk (replaceFirstL "www.".data host.data) = String.mk (host.data.drop 4)
    have hne : host.data ≠ [] := by
      intro hnil
      rw [hnil] at hpre
      exact absurd hpre (by decide)
    rw [replaceFirstL_of_isPrefixOf "www.".data host.data hpre hne]
    rfl

/-- C2: normalization parses the date from pubDate, else isoDate, else
published, else the current clock value; an unparseable date rejects the
entry (no Article is produced); a date strictly after now does NOT
reject the entry — it is clamped to now; consequently every Article
produced has pubDate less than or equal to now. -/
theorem normalize_date_spec (parse : String → Option ℤ) (relevant : Bool)
    (title url : String) (pub iso published : Option String)
    (t0 now cutoff : ℤ) (h0 : t0 ≤ now) (h1 : cutoff ≤ now) :
    (∀ s, jsTruthy pub = some s → selectDateField pub iso published = some s) ∧
    (∀ s, jsTruthy pub = none → jsTruthy iso = some s →
      selectDateField pub iso published = some s) ∧
    (jsTruthy pub = none → jsTruthy iso = none →
      selectDateField pub iso published = jsTruthy published) ∧
    (selectDateField pub iso published = none →
      parsePubDateMs parse t0 pub iso published = some t0) ∧
    (∀ s, selectDateField pub iso published = some s → parse s = none →
      normalizeItem parse relevant title url pub iso published t0 now cutoff = none) ∧
    (∀ s t, selectDateField pub iso published = some s → parse s = some t → now < t →
      title ≠ "" → url ≠ "" → relevant = true →
      normalizeItem parse relevant title url pub iso published t0 now cutoff
        = some ⟨title, url, now⟩) ∧
    (∀ a, normalizeItem parse relevant title url pub iso published t0 now cutoff = some a →
      a.pubDate ≤ now) := by
  refine ⟨?_, ?_, ?_, ?_, ?_, ?_, ?_⟩
  · intro s hs
    unfold selectDateField
    rw [hs]
  · intro s hp hs
    unfold selectDateField
    rw [hp, hs]
  · intro hp hi
    unfold selectDateField
    rw [hp, hi]
  · intro hsel
    unfold parsePubDateMs
    rw [hsel]
  · intro s hsel hparse
    have hpd : parsePubDateMs parse t0 pub iso published = none := by
      unfold parsePubDateMs
      rw [hsel]
      exact hparse
    unfold normalizeItem
    rw [hpd]
    split
    · rfl
    · split
      · rfl
      · rfl
  · intro s t hsel hparse hfut htitle hurl hrel
    have hpd : parsePubDateMs parse t0 pub iso published = some t := by
      unfold parsePubDateMs
      rw [hsel]
      exact hparse
    have hcv : clampValidate (some t) now cutoff = some now := by
      show (if (if now < t then now else t) < cutoff then (none : Option ℤ)
        else some (if now < t then now else t)) = some now
      rw [if_pos hfut, if_neg (not_lt.mpr h1)]
    unfold normalizeItem
    rw [hpd, if_neg (by simp [htitle, hurl]), if_neg (by simp [hrel]), hcv]
  · intro a ha
    unfold normalizeItem at ha
    by_cases hb1 : title = "" ∨ url = ""
    · rw [if_pos hb1] at ha
      exact absurd ha (by simp)
    · rw [if_neg hb1] at ha
      by_cases hb2 : relevant = false
      · rw [if_pos hb2] at ha
        exact absurd ha (by simp)
      · rw [if_neg hb2] at ha
        cases hcv : clampValidate (parsePubDateMs parse t0 pub iso published) now cutoff with
        | none =>
          rw [hcv] at ha
          exact absurd ha (by simp)
        | some d =>
          rw [hcv] at ha
          have had : some (⟨title, url, d⟩ : Article) = some a := ha
          have hd : d ≤ now := by
            cases hpd : parsePubDateMs parse t0 pub iso published with
            | none =>
              rw [hpd] at hcv
              exact absurd hcv (by simp [clampValidate])
            | some t =>
              rw [hpd] at hcv
              have hcv' : (if (if now < t then now else t) < cutoff then (none : Option ℤ)
                  else some (if now < t then now else t)) = some d := hcv
              by_cases hc : (if now < t then now else t) < cutoff
              · rw [if_pos hc] at hcv'
                exact absurd hcv' (by simp)
              · rw [if_neg hc] at hcv'
                have heq : (if now < t then now else t) = d := by
                  injection hcv'
                rw [← heq]
                by_cases hlt : now < t
                · rw [if_pos hlt]
                · rw [if_neg hlt]
                  exact le_of_not_lt hlt
          have haa : a = ⟨title, url, d⟩ := by
            injection had with h
            exact h.symm
          rw [haa]
          exact hd

/-- Witness for C2 at concrete inputs: an entry whose pubDate field is
"future" parsing to timestamp 200 with now = 100. -/
theorem normalize_date_spec_witness :
    (∀ s, jsTruthy (some "future") = some s →
      selectDateField (some "future") none none = some s) ∧
    (∀ s, jsTruthy (some "future") = none → jsTruthy none = some s →
      selectDateField (some "future") none none = some s) ∧
    (jsTruthy (some "future") = none → jsTruthy none = none →
      selectDateField (some "future") none none = jsTruthy none) ∧
    (selectDateField (some "future") none none = none →
      parsePubDateMs (fun s => if s = "future" then some 200 else none) 50
        (some "future") none none = some 50) ∧
    (∀ s, selectDateField (some "future") none none = some s →
      (if s = "future" then some (200 : ℤ) else none) = none →
      normalizeItem (fun s => if s = "future" then some 200 else none) true
        "T" "u" (some "future") none none 50 100 0 = none) ∧
    (∀ s t, selectDateField (some "future") none none = some s →
      (if s = "future" then some (200 : ℤ) else none) = some t → 100 < t →
      "T" ≠ "" → "u" ≠ "" → true = true →
      normalizeItem (fun s => if s = "future" then some 200 else none) true
        "T" "u" (some "future") none none 50 100 0 = some ⟨"T", "u", 100⟩) ∧
    (∀ a, normalizeItem (fun s => if s = "future" then some 200 else none) true
        "T" "u" (some "future") none none 50 100 0 = some a →
      a.pubDate ≤ 100) :=
  normalize_date_spec (fun s => if s = "future" then some 200 else none) true
    "T" "u" (some "future") none none 50 100 0 (by norm_num) (by norm_num)

theorem removeDupGo_sublist (l : List Article) :
    ∀ seen, (removeDupGo l seen).Sublist l := by
  induction l with
  | nil => intro seen; exact List.Sublist.refl []
  | cons a rest ih =>
    intro seen
    unfold removeDupGo
    by_cases h : dedupKey a.title ∈ seen
    · rw [if_pos h]
      exact (ih seen).cons a
    · rw [if_neg h]
      exact (ih (dedupKey a.title :: seen)).cons₂ a

theorem removeDupGo_key_not_seen (l : List Article) :
    ∀ seen, ∀ b ∈ removeDupGo l seen, dedupKey b.title ∉ seen := by
  induction l with
  | nil => intro seen b hb; exact absurd hb (by simp [removeDupGo])
  | cons a rest ih =>
    intro seen b hb
    unfold removeDupGo at hb
    by_cases h : dedupKey a.title ∈ seen
    · rw [if_pos h] at hb
      exact ih seen b hb
    · rw [if_neg h] at hb
      rcases List.mem_cons.mp hb with rfl | hb'
      · exact h
      · intro hmem
        exact ih (dedupKey a.title :: seen) b hb' (List.mem_cons_of_mem _ hmem)

theorem removeDupGo_keys_nodup (l : List Article) :
    ∀ seen, ((removeDupGo l seen).map (fun a => dedupKey a.title)).Nodup := by
  induction l with
  | nil => intro seen; simp [removeDupGo]
  | cons a rest ih =>
    intro seen
    unfold removeDupGo
    by_cases h : dedupKey a.title ∈ seen
    · rw [if_pos h]
      exact ih seen
    · rw [if_neg h]
      rw [List.map_cons, List.nodup_cons]
      refine ⟨?_, ih (dedupKey a.title :: seen)⟩
      intro hmem
      obtain ⟨b, hb, hkey⟩ := List.mem_map.mp hmem
      exact removeDupGo_key_not_seen rest (dedupKey a.title :: seen) b hb
        (hkey ▸ List.mem_cons_self _ _)

theorem removeDupGo_covers (l : List Article) :
    ∀ seen, ∀ a ∈ l, dedupKey a.title ∈ seen ∨
      ∃ b ∈ removeDupGo l seen, dedupKey b.title = dedupKey a.title := by
  induction l with
  | nil => intro seen a ha; exact absurd ha (List.not_mem_nil a)
  | cons x rest ih =>
    intro seen a ha
    unfold removeDupGo
    by_cases h : dedupKey x.title ∈ seen
    · rw [if_pos h]
      rcases List.mem_cons.mp ha with rfl | ha'
      · exact Or.inl h
      · exact ih seen a ha'
    · rw [if_neg h]
      rcases List.mem_cons.mp ha with rfl | ha'
      · exact Or.inr ⟨a, List.mem_cons_self _ _, rfl⟩
      · rcases ih (dedupKey x.title :: seen) a ha' with hmem | ⟨b, hb, hkey⟩
        · rcases List.mem_cons.mp hmem with heq | hseen
          · exact Or.inr ⟨x, List.mem_cons_self _ _, heq.symm⟩
          · exact Or.inl hseen
        · exact Or.inr ⟨b, List.mem_cons_of_mem _ hb, hkey⟩

theorem removeDupGo_first (l : List Article) :
    ∀ seen, ∀ b ∈ removeDupGo l seen, ∃ p s, l = p ++ b :: s ∧
      dedupKey b.title ∉ seen ∧
      ∀ x ∈ p, dedupKey x.title ∈ seen ∨ dedupKey x.title ≠ dedupKey b.title := by
  induction l with
  | nil => intro seen b hb; exact absurd hb (by simp [removeDupGo])
  | cons a rest ih =>
    intro seen b hb
    unfold removeDupGo at hb
    by_cases h : dedupKey a.title ∈ seen
    · rw [if_pos h] at hb
      obtain ⟨p, s, hsplit, hnot, hall⟩ := ih seen b hb
      refine ⟨a :: p, s, by rw [hsplit]; rfl, hnot, ?_⟩
      intro x hx
      rcases List.mem_cons.mp hx with rfl | hx'
      · exact Or.inl h
      · exact hall x hx'
    · rw [if_neg h] at hb
      rcases List.mem_cons.mp hb with rfl | hb'
      · exact ⟨[], rest, rfl, h, by simp⟩
      · obtain ⟨p, s, hsplit, hnot, hall⟩ := ih (dedupKey a.title :: seen) b hb'
        have hbne : dedupKey b.title ≠ dedupKey a.title := by
          intro heq
          exact hnot (heq ▸ List.mem_cons_self _ _)
        refine ⟨a :: p, s, by rw [hsplit]; rfl, fun hm => hnot (List.mem_cons_of_mem _ hm), ?_⟩
        intro x hx
        rcases List.mem_cons.mp hx with rfl | hx'
        · exact Or.inr (fun heq => hbne heq.symm)
        · rcases hall x hx' with hmem | hne
          · rcases List.mem_cons.mp hmem with heq | hseen
            · exact Or.inr (heq ▸ fun hc => hbne hc.symm)
            · exact Or.inl hseen
          · exact Or.inr hne

/-- C3: removeDuplicates is order-preserving (the output is a sublist of
the input) and first-occurrence-wins on the normalized first-8-word key:
output keys are pairwise distinct, every input key is represented, every
kept article is the first of its key in input order, and in particular
two articles with equal keys but different urls collapse to the first. -/
theorem removeDuplicates_spec (l : List Article) :
    (removeDuplicates l).Sublist l ∧
    ((removeDuplicates l).map (fun a => dedupKey a.title)).Nodup ∧
    (∀ a ∈ l, ∃ b ∈ removeDuplicates l, dedupKey b.title = dedupKey a.title) ∧
    (∀ b ∈ removeDuplicates l, ∃ p s, l = p ++ b :: s ∧
      ∀ x ∈ p, dedupKey x.title ≠ dedupKey b.title) ∧
    (∀ a1 a2 : Article, dedupKey a1.title = dedupKey a2.title →
      removeDuplicates [a1, a2] = [a1]) := by
  refine ⟨removeDupGo_sublist l [], removeDupGo_keys_nodup l [], ?_, ?_, ?_⟩
  · intro a ha
    rcases removeDupGo_covers l [] a ha with hmem | hb
    · exact absurd hmem (List.not_mem_nil _)
    · exact hb
  · intro b hb
    obtain ⟨p, s, hsplit, _, hall⟩ := removeDupGo_first l [] b hb
    refine ⟨p, s, hsplit, ?_⟩
    intro x hx
    rcases hall x hx with hmem | hne
    · exact absurd hmem (List.not_mem_nil _)
    · exact hne
  · intro a1 a2 hkey
    unfold removeDuplicates
    show removeDupGo [a1, a2] [] = [a1]
    unfold removeDupGo
    rw [if_neg (List.not_mem_nil _)]
    unfold removeDupGo
    rw [if_pos (by rw [← hkey]; exact List.mem_cons_self _ _)]
    rfl

/-- Witness for C3 at a concrete input: two articles whose titles
normalize to the same key but whose urls differ. -/
theorem removeDuplicates_spec_witness :
    (removeDuplicates [⟨"AI wins", "https://a.com/x", 1⟩,
        ⟨"AI   wins!", "https://b.com/y", 2⟩]).Sublist
      [⟨"AI wins", "https://a.com/x", 1⟩, ⟨"AI   wins!", "https://b.com/y", 2⟩] ∧
    ((removeDuplicates [⟨"AI wins", "https://a.com/x", 1⟩,
        ⟨"AI   wins!", "https://b.com/y", 2⟩]).map (fun a => dedupKey a.title)).Nodup ∧
    (∀ a ∈ [(⟨"AI wins", "https://a.com/x", 1⟩ : Article),
        ⟨"AI   wins!", "https://b.com/y", 2⟩],
      ∃ b ∈ removeDuplicates [⟨"AI wins", "https://a.com/x", 1⟩,
        ⟨"AI   wins!", "https://b.com/y", 2⟩], dedupKey b.title = dedupKey a.title) ∧
    (∀ b ∈ removeDuplicates [⟨"AI wins", "https://a.com/x", 1⟩,
        ⟨"AI   wins!", "https://b.com/y", 2⟩],
      ∃ p s, [(⟨"AI wins", "https://a.com/x", 1⟩ : Article),
          ⟨"AI   wins!", "https://b.com/y", 2⟩] = p ++ b :: s ∧
        ∀ x ∈ p, dedupKey x.title ≠ dedupKey b.title) ∧
    (∀ a1 a2 : Article, dedupKey a1.title = dedupKey a2.title →
      removeDuplicates [a1, a2] = [a1]) :=
  removeDuplicates_spec [⟨"AI wins", "https://a.com/x", 1⟩,
    ⟨"AI   wins!", "https://b.com/y", 2⟩]

/-- Witness for C9 amended at concrete inputs. -/
theorem extractDomain_amended_witness :
    (some "www.example.com" = (none : Option String) →
      extractDomain (some "www.example.com") = "unknown") ∧
    (∀ host, some "www.example.com" = some host → ¬ ("www.".data <:+: host.data) →
      extractDomain (some "www.example.com") = String.mk host.data) ∧
    (∀ host, some "www.example.com" = some host → "www.".data <:+: host.data →
      ∃ a b, host.data = a ++ "www.".data ++ b ∧
        extractDomain (some "www.example.com") = String.mk (a ++ b) ∧
        ∀ a' b', host.data = a' ++ "www.".data ++ b' → a.length ≤ a'.length) ∧
    (∀ host, some "www.example.com" = some host → "www.".data.isPrefixOf host.data →
      extractDomain (some "www.example.com") = String.mk (host.data.drop 4)) :=
  extractDomain_amended (some "www.example.com")

/-- Counterexample to C4 as stated: with now = 15 days (in ms) the
cleanup threshold is exactly 0, and an article whose pubDate is exactly
the boundary now - 15 days is DROPPED by the rolling-window filter, not
kept: the filter keeps only strictly newer articles. -/
theorem retention_boundary_dropped :
    (⟨⟨"a1", "t", 0⟩, "industry-news", 1, 0⟩ : ProcessedArticle).base.pubDate
      = cleanupThreshold (15 * 86400000) 15 ∧
    retentionFilter (15 * 86400000) 15
      [⟨⟨"a1", "t", 0⟩, "industry-news", 1, 0⟩] = [] := by
  exact ⟨by decide, by decide⟩

/-- C4 amended: the rolling-window filter with window N = 15 days keeps
exactly the articles whose pubDate is STRICTLY after now - N days: an
article dated now - (N+1) days is excluded, one dated now - (N-1) days
is included, and one dated exactly now - N days is excluded (articles
older than or equal to the boundary are dropped). -/
theorem retention_window_amended (nowMs : ℤ) (a : ProcessedArticle)
    (l : List ProcessedArticle) :
    (a ∈ retentionFilter nowMs 15 l ↔
      a ∈ l ∧ nowMs - 15 * msPerDay < a.base.pubDate) ∧
    (a.base.pubDate = nowMs - 16 * msPerDay → a ∉ retentionFilter nowMs 15 l) ∧
    (a ∈ l → a.base.pubDate = nowMs - 14 * msPerDay → a ∈ retentionFilter nowMs 15 l) ∧
    (a.base.pubDate = nowMs - 15 * msPerDay → a ∉ retentionFilter nowMs 15 l) := by
  have hmem : a ∈ retentionFilter nowMs 15 l ↔
      a ∈ l ∧ nowMs - 15 * msPerDay < a.base.pubDate := by
    unfold retentionFilter cleanupThreshold
    rw [List.mem_filter]
    simp [msPerDay]
  refine ⟨hmem, ?_, ?_, ?_⟩
  · intro hdate hin
    have := (hmem.mp hin).2
    rw [hdate] at this
    unfold msPerDay at this
    omega
  · intro hin hdate
    refine hmem.mpr ⟨hin, ?_⟩
    rw [hdate]
    unfold msPerDay
    omega
  · intro hdate hin
    have := (hmem.mp hin).2
    rw [hdate] at this
    omega

/-- Witness for C4 amended at concrete inputs. -/
theorem retention_window_amended_witness :
    ((⟨⟨"w", "t", 15 * 86400000 - 14 * msPerDay⟩, "c", 1, 0⟩ : ProcessedArticle)
        ∈ retentionFilter (15 * 86400000) 15
          [⟨⟨"w", "t", 15 * 86400000 - 14 * msPerDay⟩, "c", 1, 0⟩] ↔
      (⟨⟨"w", "t", 15 * 86400000 - 14 * msPerDay⟩, "c", 1, 0⟩ : ProcessedArticle)
        ∈ [(⟨⟨"w", "t", 15 * 86400000 - 14 * msPerDay⟩, "c", 1, 0⟩ : ProcessedArticle)] ∧
      (15 * 86400000 : ℤ) - 15 * msPerDay
        < (⟨⟨"w", "t", 15 * 86400000 - 14 * msPerDay⟩, "c", 1, 0⟩ : ProcessedArticle).base.pubDate) ∧
    ((⟨⟨"w", "t", 15 * 86400000 - 14 * msPerDay⟩, "c", 1, 0⟩ : ProcessedArticle).base.pubDate
        = 15 * 86400000 - 16 * msPerDay →
      (⟨⟨"w", "t", 15 * 86400000 - 14 * msPerDay⟩, "c", 1, 0⟩ : ProcessedArticle)
        ∉ retentionFilter (15 * 86400000) 15
          [⟨⟨"w", "t", 15 * 86400000 - 14 * msPerDay⟩, "c", 1, 0⟩]) ∧
    ((⟨⟨"w", "t", 15 * 86400000 - 14 * msPerDay⟩, "c", 1, 0⟩ : ProcessedArticle)
        ∈ [(⟨⟨"w", "t", 15 * 86400000 - 14 * msPerDay⟩, "c", 1, 0⟩ : ProcessedArticle)] →
      (⟨⟨"w", "t", 15 * 86400000 - 14 * msPerDay⟩, "c", 1, 0⟩ : ProcessedArticle).base.pubDate
        = 15 * 86400000 - 14 * msPerDay →
      (⟨⟨"w", "t", 15 * 86400000 - 14 * msPerDay⟩, "c", 1, 0⟩ : ProcessedArticle)
        ∈ retentionFilter (15 * 86400000) 15
          [⟨⟨"w", "t", 15 * 86400000 - 14 * msPerDay⟩, "c", 1, 0⟩]) ∧
    ((⟨⟨"w", "t", 15 * 86400000 - 14 * msPerDay⟩, "c", 1, 0⟩ : ProcessedArticle).base.pubDate
        = 15 * 86400000 - 15 * msPerDay →
      (⟨⟨"w", "t", 15 * 86400000 - 14 * msPerDay⟩, "c", 1, 0⟩ : ProcessedArticle)
        ∉ retentionFilter (15 * 86400000) 15
          [⟨⟨"w", "t", 15 * 86400000 - 14 * msPerDay⟩, "c", 1, 0⟩]) :=
  retention_window_amended (15 * 86400000)
    ⟨⟨"w", "t", 15 * 86400000 - 14 * msPerDay⟩, "c", 1, 0⟩
    [⟨⟨"w", "t", 15 * 86400000 - 14 * msPerDay⟩, "c", 1, 0⟩]

/-- C5: the rolling-window retention pass is idempotent: applied a
second time to its own output at the same reference time it changes
nothing, removes nothing, and reports cleanedUpCount = 0 and
cleanupApplied = false. -/
theorem retention_idempotent (nowMs : ℤ) (days : ℕ) (l : List ProcessedArticle) :
    (runRetention nowMs days (runRetention nowMs days l).articles).articles
      = (runRetention nowMs days l).articles ∧
    (runRetention nowMs days (runRetention nowMs days l).articles).cleanedUpCount = 0 ∧
    (runRetention nowMs days (runRetention nowMs days l).articles).cleanupApplied = false := by
  have hidem : retentionFilter nowMs days (retentionFilter nowMs days l)
      = retentionFilter nowMs days l := by
    unfold retentionFilter
    rw [List.filter_filter]
    simp only [Bool.and_self]
  have harts : (runRetention nowMs days l).articles = retentionFilter nowMs days l := rfl
  refine ⟨?_, ?_, ?_⟩
  · show retentionFilter nowMs days (retentionFilter nowMs days l)
      = retentionFilter nowMs days l
    exact hidem
  · show (retentionFilter nowMs days l).length
      - (retentionFilter nowMs days (retentionFilter nowMs days l)).length = 0
    rw [hidem, Nat.sub_self]
  · show decide (0 < (retentionFilter nowMs days l).length
      - (retentionFilter nowMs days (retentionFilter nowMs days l)).length) = false
    rw [hidem, Nat.sub_self]
    rfl

theorem mem_finalArticlesToProcess (limit : Option ℕ) (raw : List RawArticle)
    (pIds rIds : List String) (a : RawArticle)
    (h : a ∈ finalArticlesToProcess limit raw pIds rIds) :
    a ∈ raw ∧ a.id ∉ pIds ∧ a.id ∉ rIds := by
  have hfil : a ∈ articlesToProcess raw pIds rIds := by
    cases limit with
    | none => exact h
    | some n => exact List.mem_of_mem_take h
  obtain ⟨hraw, hcond⟩ := List.mem_filter.mp hfil
  rw [Bool.and_eq_true, Bool.not_eq_true', Bool.not_eq_true'] at hcond
  refine ⟨hraw, ?_, ?_⟩
  · intro hmem
    have h1 : List.elem a.id pIds = false := hcond.1
    rw [List.elem_iff.mpr hmem] at h1
    exact absurd h1 (by simp)
  · intro hmem
    have h2 : List.elem a.id rIds = false := hcond.2
    rw [List.elem_iff.mpr hmem] at h2
    exact absurd h2 (by simp)

/-- Witness for C5 at a concrete input. -/
theorem retention_idempotent_witness :
    (runRetention 1296000000000 15
        (runRetention 1296000000000 15
          [⟨⟨"w5", "t", 1296000000000⟩, "c", 1, 0⟩, ⟨⟨"o5", "t", 0⟩, "c", 1, 0⟩]).articles).articles
      = (runRetention 1296000000000 15
          [⟨⟨"w5", "t", 1296000000000⟩, "c", 1, 0⟩, ⟨⟨"o5", "t", 0⟩, "c", 1, 0⟩]).articles ∧
    (runRetention 1296000000000 15
        (runRetention 1296000000000 15
          [⟨⟨"w5", "t", 1296000000000⟩, "c", 1, 0⟩, ⟨⟨"o5", "t", 0⟩, "c", 1, 0⟩]).articles).cleanedUpCount
      = 0 ∧
    (runRetention 1296000000000 15
        (runRetention 1296000000000 15
          [⟨⟨"w5", "t", 1296000000000⟩, "c", 1, 0⟩, ⟨⟨"o5", "t", 0⟩, "c", 1, 0⟩]).articles).cleanupApplied
      = false :=
  retention_idempotent 1296000000000 15
    [⟨⟨"w5", "t", 1296000000000⟩, "c", 1, 0⟩, ⟨⟨"o5", "t", 0⟩, "c", 1, 0⟩]

/-- C7: the articles submitted to classification are exactly the raw
articles whose id appears neither among the processed ids nor among the
rejected-cache ids (exactly so when no PROCESSING_LIMIT truncation is
set); under any truncation, a submitted article still has its id in
neither set, and an article whose id is in either set is never
submitted. -/
theorem incremental_skip_filter (raw : List RawArticle) (pIds rIds : List String) :
    (finalArticlesToProcess none raw pIds rIds
      = raw.filter (fun a => !pIds.contains a.id && !rIds.contains a.id)) ∧
    (∀ limit, ∀ a ∈ finalArticlesToProcess limit raw pIds rIds,
      a ∈ raw ∧ a.id ∉ pIds ∧ a.id ∉ rIds) ∧
    (∀ limit, ∀ a ∈ raw, a.id ∈ pIds →
      a ∉ finalArticlesToProcess limit raw pIds rIds) ∧
    (∀ limit, ∀ a ∈ raw, a.id ∈ rIds →
      a ∉ finalArticlesToProcess limit raw pIds rIds) := by
  refine ⟨rfl, ?_, ?_, ?_⟩
  · intro limit a h
    exact mem_finalArticlesToProcess limit raw pIds rIds a h
  · intro limit a _ hid hmem
    exact (mem_finalArticlesToProcess limit raw pIds rIds a hmem).2.1 hid
  · intro limit a _ hid hmem
    exact (mem_finalArticlesToProcess limit raw pIds rIds a hmem).2.2 hid

/-- Witness for C7 at concrete inputs. -/
theorem incremental_skip_filter_witness :
    (finalArticlesToProcess none [⟨"i1", "t", 0⟩, ⟨"i2", "t", 0⟩] ["i2"] ["i3"]
      = List.filter (fun a => !(["i2"].contains a.id) && !(["i3"].contains a.id))
          [⟨"i1", "t", 0⟩, ⟨"i2", "t", 0⟩]) ∧
    (∀ limit, ∀ a ∈ finalArticlesToProcess limit [⟨"i1", "t", 0⟩, ⟨"i2", "t", 0⟩] ["i2"] ["i3"],
      a ∈ [(⟨"i1", "t", 0⟩ : RawArticle), ⟨"i2", "t", 0⟩] ∧ a.id ∉ ["i2"] ∧ a.id ∉ ["i3"]) ∧
    (∀ limit, ∀ a ∈ [(⟨"i1", "t", 0⟩ : RawArticle), ⟨"i2", "t", 0⟩], a.id ∈ ["i2"] →
      a ∉ finalArticlesToProcess limit [⟨"i1", "t", 0⟩, ⟨"i2", "t", 0⟩] ["i2"] ["i3"]) ∧
    (∀ limit, ∀ a ∈ [(⟨"i1", "t", 0⟩ : RawArticle), ⟨"i2", "t", 0⟩], a.id ∈ ["i3"] →
      a ∉ finalArticlesToProcess limit [⟨"i1", "t", 0⟩, ⟨"i2", "t", 0⟩] ["i2"] ["i3"]) :=
  incremental_skip_filter [⟨"i1", "t", 0⟩, ⟨"i2", "t", 0⟩] ["i2"] ["i3"]

theorem routeArticles_rejected_mem (classify : RawArticle → String × ℚ)
    (threshold : ℚ) (procAt rejAt : ℤ) (l : List RawArticle) (a : RawArticle)
    (ha : a ∈ l) (hconf : (classify a).2 < threshold) :
    (⟨a, "low_confidence", (classify a).2, threshold, rejAt⟩ : RejectedArticle)
      ∈ (routeArticles classify threshold procAt rejAt l).rejected := by
  induction l with
  | nil => cases ha
  | cons x rest ih =>
    unfold routeArticles
    rcases List.mem_cons.mp ha with rfl | ha'
    · rw [if_pos hconf]
      exact List.mem_cons_self _ _
    · by_cases hx : (classify x).2 < threshold
      · rw [if_pos hx]
        exact List.mem_cons_of_mem _ (ih ha')
      · rw [if_neg hx]
        exact ih ha'

theorem routeArticles_processed_mem (classify : RawArticle → String × ℚ)
    (threshold : ℚ) (procAt rejAt : ℤ) (l : List RawArticle) (a : RawArticle)
    (ha : a ∈ l) (hconf : ¬ (classify a).2 < threshold) :
    (⟨a, (classify a).1, (classify a).2, procAt⟩ : ProcessedArticle)
      ∈ (routeArticles classify threshold procAt rejAt l).processed := by
  induction l with
  | nil => cases ha
  | cons x rest ih =>
    unfold routeArticles
    rcases List.mem_cons.mp ha with rfl | ha'
    · rw [if_neg hconf]
      exact List.mem_cons_self _ _
    · by_cases hx : (classify x).2 < threshold
      · rw [if_pos hx]
        exact ih ha'
      · rw [if_neg hx]
        exact List.mem_cons_of_mem _ (ih ha')

theorem routeArticles_processed_char (classify : RawArticle → String × ℚ)
    (threshold : ℚ) (procAt rejAt : ℤ) (l : List RawArticle) :
    ∀ e ∈ (routeArticles classify threshold procAt rejAt l).processed,
      ∃ b ∈ l, e = ⟨b, (classify b).1, (classify b).2, procAt⟩ ∧
        ¬ (classify b).2 < threshold := by
  induction l with
  | nil =>
    intro e he
    exact absurd he (List.not_mem_nil e)
  | cons x rest ih =>
    intro e he
    unfold routeArticles at he
    by_cases hx : (classify x).2 < threshold
    · rw [if_pos hx] at he
      obtain ⟨b, hb, heq, hc⟩ := ih e he
      exact ⟨b, List.mem_cons_of_mem _ hb, heq, hc⟩
    · rw [if_neg hx] at he
      have he' : e ∈ (⟨x, (classify x).1, (classify x).2, procAt⟩ : ProcessedArticle)
          :: (routeArticles classify threshold procAt rejAt rest).processed := he
      rcases List.mem_cons.mp he' with rfl | he''
      · exact ⟨x, List.mem_cons_self _ _, rfl, hx⟩
      · obtain ⟨b, hb, heq, hc⟩ := ih e he''
        exact ⟨b, List.mem_cons_of_mem _ hb, heq, hc⟩

/-- C6: with the default threshold 0.25, an article classified with
confidence strictly below the threshold is routed to the rejected cache
as a record carrying rejectedReason = low_confidence, the confidence
value, the threshold and the rejection timestamp, and no article of the
resulting latest-processed snapshot stems from it; an article with
confidence at least the threshold appears in the processed output. -/
theorem confidence_threshold_routing (classify : RawArticle → String × ℚ)
    (nowMs procAt rejAt : ℤ) (raw : List RawArticle)
    (existing : List ProcessedArticle) (cache : List RejectedArticle)
    (testLimit : Option ℕ) (a : RawArticle)
    (ha : a ∈ finalArticlesToProcess testLimit raw
      (existing.map (fun e => e.base.id)) (cache.map (fun e => e.base.id))) :
    ((classify a).2 < 1/4 →
      ((⟨a, "low_confidence", (classify a).2, 1/4, rejAt⟩ : RejectedArticle)
        ∈ (processRun classify (1/4) nowMs procAt rejAt raw existing cache
            testLimit).newlyRejected) ∧
      (nowMs - 15 * msPerDay < rejAt →
        (⟨a, "low_confidence", (classify a).2, 1/4, rejAt⟩ : RejectedArticle)
          ∈ (processRun classify (1/4) nowMs procAt rejAt raw existing cache
              testLimit).rejectedCacheOut) ∧
      (∀ e ∈ (processRun classify (1/4) nowMs procAt rejAt raw existing cache
          testLimit).latestArticles, e.base ≠ a)) ∧
    (¬ (classify a).2 < 1/4 →
      (⟨a, (classify a).1, (classify a).2, procAt⟩ : ProcessedArticle)
        ∈ (processRun classify (1/4) nowMs procAt rejAt raw existing cache
            testLimit).newlyProcessed) := by
  have hnr : (processRun classify (1/4) nowMs procAt rejAt raw existing cache
      testLimit).newlyRejected
      = (routeArticles classify (1/4) procAt rejAt (finalArticlesToProcess testLimit raw
          (existing.map (fun e => e.base.id)) (cache.map (fun e => e.base.id)))).rejected := rfl
  have hnp : (processRun classify (1/4) nowMs procAt rejAt raw existing cache
      testLimit).newlyProcessed
      = (routeArticles classify (1/4) procAt rejAt (finalArticlesToProcess testLimit raw
          (existing.map (fun e => e.base.id)) (cache.map (fun e => e.base.id)))).processed := rfl
  have hla : (processRun classify (1/4) nowMs procAt rejAt raw existing cache
      testLimit).latestArticles
      = retentionFilter nowMs 15 (sortByPubDateDesc (existing
          ++ (routeArticles classify (1/4) procAt rejAt (finalArticlesToProcess testLimit raw
            (existing.map (fun e => e.base.id))
            (cache.map (fun e => e.base.id)))).processed)) := rfl
  have hrc : (processRun classify (1/4) nowMs procAt rejAt raw existing cache
      testLimit).rejectedCacheOut
      = updateRejectedCache cache (routeArticles classify (1/4) procAt rejAt
          (finalArticlesToProcess testLimit raw (existing.map (fun e => e.base.id))
            (cache.map (fun e => e.base.id)))).rejected nowMs 15 := rfl
  refine ⟨?_, ?_⟩
  · intro hconf
    have hrej := routeArticles_rejected_mem classify (1/4) procAt rejAt _ a ha hconf
    refine ⟨?_, ?_, ?_⟩
    · rw [hnr]
      exact hrej
    · intro hrecent
      rw [hrc]
      unfold updateRejectedCache
      rw [if_neg (List.ne_nil_of_mem hrej)]
      refine List.mem_filter.mpr ⟨List.mem_append_right _ hrej, ?_⟩
      simp only [decide_eq_true_eq]
      show cleanupThreshold nowMs 15 < rejAt
      unfold cleanupThreshold msPerDay
      unfold msPerDay at hrecent
      omega
    · intro e he heq
      rw [hla] at he
      have h1 := (List.mem_filter.mp he).1
      have h2 : e ∈ existing ++ (routeArticles classify (1/4) procAt rejAt
          (finalArticlesToProcess testLimit raw (existing.map (fun e => e.base.id))
            (cache.map (fun e => e.base.id)))).processed :=
        ((List.mergeSort_perm _ _).mem_iff).mp h1
      rcases List.mem_append.mp h2 with hex | hproc
      · have hid : e.base.id ∈ existing.map (fun e => e.base.id) :=
          List.mem_map.mpr ⟨e, hex, rfl⟩
        rw [heq] at hid
        exact (mem_finalArticlesToProcess testLimit raw _ _ a ha).2.1 hid
      · obtain ⟨b, _, hbe, hbc⟩ :=
          routeArticles_processed_char classify (1/4) procAt rejAt _ e hproc
        have hba : b = a := by
          rw [hbe] at heq
          exact heq
        rw [hba] at hbc
        exact hbc hconf
  · intro hconf
    rw [hnp]
    exact routeArticles_processed_mem classify (1/4) procAt rejAt _ a ha hconf

/-- Witness for C6 at a concrete input: one raw article classified at
confidence 1/10 against threshold 1/4. -/
theorem confidence_threshold_routing_witness :
    (((fun _ : RawArticle => ("industry-news", (1 : ℚ)/10)) ⟨"i1", "T", 0⟩).2 < 1/4 →
      ((⟨⟨"i1", "T", 0⟩, "low_confidence",
          ((fun _ : RawArticle => ("industry-news", (1 : ℚ)/10)) ⟨"i1", "T", 0⟩).2, 1/4, 0⟩
          : RejectedArticle)
        ∈ (processRun (fun _ => ("industry-news", (1 : ℚ)/10)) (1/4) 0 0 0
            [⟨"i1", "T", 0⟩] [] [] none).newlyRejected) ∧
      ((0 : ℤ) - 15 * msPerDay < 0 →
        (⟨⟨"i1", "T", 0⟩, "low_confidence",
            ((fun _ : RawArticle => ("industry-news", (1 : ℚ)/10)) ⟨"i1", "T", 0⟩).2, 1/4, 0⟩
            : RejectedArticle)
          ∈ (processRun (fun _ => ("industry-news", (1 : ℚ)/10)) (1/4) 0 0 0
              [⟨"i1", "T", 0⟩] [] [] none).rejectedCacheOut) ∧
      (∀ e ∈ (processRun (fun _ => ("industry-news", (1 : ℚ)/10)) (1/4) 0 0 0
          [⟨"i1", "T", 0⟩] [] [] none).latestArticles, e.base ≠ ⟨"i1", "T", 0⟩)) ∧
    (¬ ((fun _ : RawArticle => ("industry-news", (1 : ℚ)/10)) ⟨"i1", "T", 0⟩).2 < 1/4 →
      (⟨⟨"i1", "T", 0⟩,
          ((fun _ : RawArticle => ("industry-news", (1 : ℚ)/10)) ⟨"i1", "T", 0⟩).1,
          ((fun _ : RawArticle => ("industry-news", (1 : ℚ)/10)) ⟨"i1", "T", 0⟩).2, 0⟩
          : ProcessedArticle)
        ∈ (processRun (fun _ => ("industry-news", (1 : ℚ)/10)) (1/4) 0 0 0
            [⟨"i1", "T", 0⟩] [] [] none).newlyProcessed) :=
  confidence_threshold_routing (fun _ => ("industry-news", (1 : ℚ)/10)) 0 0 0
    [⟨"i1", "T", 0⟩] [] [] none ⟨"i1", "T", 0⟩ (by decide)

/-- C8 evaluated at a failing snapshot write: the crawl entry point
exits with code 1 as the claim says; but in the processing entry point,
although the write error does propagate out of processArticlesWithAI,
the trailing .catch(console.error) only logs it, and the process exits
with code 0 — contradicting the claimed non-zero exit for every entry
point. -/
theorem persistence_failure_exit_codes :
    crawlEntryExitCode [] WriteOutcome.ioError = 1 ∧
    processRunWithWrites ⟨[], [], [], []⟩ WriteOutcome.ioError
        WriteOutcome.success WriteOutcome.success
      = Except.error "EACCES: permission denied, write latest snapshot" ∧
    processEntryExitCode ⟨[], [], [], []⟩ WriteOutcome.ioError
        WriteOutcome.success WriteOutcome.success = 0 := by
  exact ⟨rfl, rfl, rfl⟩

end DailyNewsRss
